import Mathlib

/-!
Shallow embedding of the round-robin load balancer core
(`src/server.cpp`, `src/ping_server.cpp`, `src/round_robin_load_balancer.cpp`)
together with theorems checking the natural-language specification.

Machine `uint32_t` counters are modelled as `Nat` with an explicit
`% 2^32` wherever the C++ code can overflow.
-/

def U32 : Nat := 2 ^ 32

/-- One backend server (`class Server`, `server.cpp`).
`id` models object identity (the `shared_ptr` value used by pointer
comparisons in the balancer); the other fields mirror the data members.
The `lastHealthCheck` timestamp carries no claim-relevant content and is
omitted. -/
structure Server where
  id : Nat
  address : String
  isAlive : Bool
  isHealthy : Bool
  weight : Nat
  currentConnections : Nat
  failureCount : Nat
deriving Repr, DecidableEq

/-- `Server::Server(addr, weight)`: starts alive, not healthy, no failures. -/
def mkServer (addr : String) (weight : Nat) (id : Nat) : Server :=
  { id := id, address := addr, isAlive := true, isHealthy := false,
    weight := weight, currentConnections := 0, failureCount := 0 }

/-- `Server::setAlive`. -/
def setAlive (s : Server) (b : Bool) : Server := { s with isAlive := b }

/-- `Server::resetFailures`. -/
def resetFailures (s : Server) : Server := { s with failureCount := 0 }

/-- `Server::setHealthy`: stores the flag, then resets the failure count
when the new flag is true. -/
def setHealthy (s : Server) (b : Bool) : Server :=
  let s' : Server := { s with isHealthy := b }
  if b then resetFailures s' else s'

/-- `Server::setWeight`. -/
def setWeight (s : Server) (w : Nat) : Server := { s with weight := w }

/-- `Server::incrementConnections` (`_currentConnections++` on `uint32_t`). -/
def incrementConnections (s : Server) : Server :=
  { s with currentConnections := (s.currentConnections + 1) % U32 }

/-- `Server::decrementConnections`: guarded against underflow. -/
def decrementConnections (s : Server) : Server :=
  if s.currentConnections > 0 then
    { s with currentConnections := s.currentConnections - 1 }
  else s

/-- `Server::incrementFailures` (`_failureCount++` on `uint32_t`). -/
def incrementFailures (s : Server) : Server :=
  { s with failureCount := (s.failureCount + 1) % U32 }

/-- The spec's Target invariant: `healthy == true ⇒ consecutiveFailures == 0`. -/
def healthyInv (s : Server) : Prop := s.isHealthy = true → s.failureCount = 0

/-- `PingServer::pingServer` on a non-null server, with the outcome of the
pluggable probe passed in as `probeResult`.  Mirrors `ping_server.cpp`
lines 272-295: set healthy from the result; on failure increment the
failure counter and mark not alive once it reaches 3; on success reset
failures and mark alive.  Returns the probe result paired with the
updated server. -/
def pingServer (probeResult : Bool) (s : Server) : Bool × Server :=
  let s1 := setHealthy s probeResult
  if probeResult then
    let s2 := resetFailures s1
    let s3 := setAlive s2 true
    (true, s3)
  else
    let s2 := incrementFailures s1
    let s3 := if 3 ≤ s2.failureCount then setAlive s2 false else s2
    (false, s3)

-- Sample servers used by concrete witnesses.

def srvA : Server := mkServer "10.0.0.1:80" 3 0
def srvB : Server := mkServer "10.0.0.2:80" 1 1

/-- C10: `decrementConnections` at zero stays at zero (no wrap to
`2^32 - 1`), and at a positive count decreases by exactly one. -/
theorem decrementConnections_no_underflow (s : Server) :
    (s.currentConnections = 0 →
      (decrementConnections s).currentConnections = 0) ∧
    (0 < s.currentConnections →
      (decrementConnections s).currentConnections = s.currentConnections - 1) := by
  constructor
  · intro h
    simp [decrementConnections, h]
  · intro h
    simp [decrementConnections, h]

theorem decrementConnections_no_underflow_witness :
    ((incrementConnections srvA).currentConnections = 0 →
      (decrementConnections (incrementConnections srvA)).currentConnections = 0) ∧
    (0 < (incrementConnections srvA).currentConnections →
      (decrementConnections (incrementConnections srvA)).currentConnections =
        (incrementConnections srvA).currentConnections - 1) :=
  decrementConnections_no_underflow (incrementConnections srvA)

/-- C7 counterexample: calling the public operation `incrementFailures` on a
server just made healthy yields an observable state with `healthy = true`
and `failureCount = 1 > 0`, so the claimed invariant is not preserved by
every sequence of public `Server` operations. -/
theorem healthyInv_breakable :
    (incrementFailures (setHealthy (mkServer "10.0.0.1:80" 1 0) true)).isHealthy = true ∧
    (incrementFailures (setHealthy (mkServer "10.0.0.1:80" 1 0) true)).failureCount = 1 := by
  constructor
  · rfl
  · decide

/-- C7 (amended): `setHealthy true` resets the failure count to 0, and every
public `Server` operation other than `incrementFailures` preserves the
invariant `healthy = true → failureCount = 0`; `incrementFailures` does not
consult the healthy flag and on a healthy server leaves the invariant
violated. -/
theorem healthyInv_preservation (s : Server) (hInv : healthyInv s) :
    (setHealthy s true).failureCount = 0 ∧
    (∀ b, healthyInv (setHealthy s b)) ∧
    (∀ b, healthyInv (setAlive s b)) ∧
    (∀ w, healthyInv (setWeight s w)) ∧
    healthyInv (incrementConnections s) ∧
    healthyInv (decrementConnections s) ∧
    healthyInv (resetFailures s) ∧
    (∀ addr w i, healthyInv (mkServer addr w i)) ∧
    (s.isHealthy = true →
      (incrementFailures s).isHealthy = true ∧
      (incrementFailures s).failureCount ≠ 0) := by
  refine ⟨by simp [setHealthy, resetFailures], ?_, ?_, ?_, ?_, ?_, ?_, ?_, ?_⟩
  · intro b h
    cases b
    · simp [setHealthy] at h
    · simp [setHealthy, resetFailures]
  · intro b h
    exact hInv h
  · intro w h
    exact hInv h
  · intro h
    exact hInv h
  · intro h
    have hc : (decrementConnections s).failureCount = s.failureCount := by
      unfold decrementConnections; split <;> rfl
    have hh : (decrementConnections s).isHealthy = s.isHealthy := by
      unfold decrementConnections; split <;> rfl
    rw [hc]
    exact hInv (hh ▸ h)
  · intro _
    rfl
  · intro addr w i _
    rfl
  · intro hh
    refine ⟨hh, ?_⟩
    have h0 : s.failureCount = 0 := hInv hh
    simp [incrementFailures, h0, U32]

theorem healthyInv_preservation_witness :
    healthyInv srvA ∧
    ((setHealthy srvA true).failureCount = 0 ∧
    (∀ b, healthyInv (setHealthy srvA b)) ∧
    (∀ b, healthyInv (setAlive srvA b)) ∧
    (∀ w, healthyInv (setWeight srvA w)) ∧
    healthyInv (incrementConnections srvA) ∧
    healthyInv (decrementConnections srvA) ∧
    healthyInv (resetFailures srvA) ∧
    (∀ addr w i, healthyInv (mkServer addr w i)) ∧
    (srvA.isHealthy = true →
      (incrementFailures srvA).isHealthy = true ∧
      (incrementFailures srvA).failureCount ≠ 0)) :=
  ⟨by intro h; rfl, healthyInv_preservation srvA (by intro h; rfl)⟩

/-- C2: after `pingServer`: a successful probe leaves `healthy = true`,
`failureCount = 0`, `alive = true` and returns true; a failed probe leaves
`healthy = false`, increments the failure count, sets `alive` to false
exactly when the new count reaches at least 3 (otherwise `alive` keeps its
previous value) and returns false; in particular from a clean alive state
two consecutive failures leave `alive = true` and the third one is the
exact transition to `alive = false`. -/
theorem pingServer_spec (s : Server) (hcnt : s.failureCount + 1 < U32) :
    ((pingServer true s).1 = true ∧
     (pingServer true s).2.isHealthy = true ∧
     (pingServer true s).2.failureCount = 0 ∧
     (pingServer true s).2.isAlive = true) ∧
    ((pingServer false s).1 = false ∧
     (pingServer false s).2.isHealthy = false ∧
     (pingServer false s).2.failureCount = s.failureCount + 1 ∧
     (pingServer false s).2.isAlive =
       (if 3 ≤ s.failureCount + 1 then false else s.isAlive)) ∧
    (s.isAlive = true → s.failureCount = 0 →
      ((pingServer false s).2).isAlive = true ∧
      ((pingServer false (pingServer false s).2).2).isAlive = true ∧
      ((pingServer false (pingServer false (pingServer false s).2).2).2).isAlive = false) := by
  have hmod : (s.failureCount + 1) % U32 = s.failureCount + 1 :=
    Nat.mod_eq_of_lt hcnt
  refine ⟨?_, ?_, ?_⟩
  · exact ⟨rfl, rfl, rfl, rfl⟩
  · refine ⟨rfl, ?_, ?_, ?_⟩
    · simp [pingServer, setHealthy, incrementFailures, setAlive]
      split <;> rfl
    · simp [pingServer, setHealthy, incrementFailures, setAlive, hmod]
      split <;> simp [hmod]
    · simp [pingServer, setHealthy, incrementFailures, setAlive, hmod]
      split <;> rename_i hsplit <;> simp [hmod] at hsplit ⊢
      · omega
      · omega
  · intro halive h0
    have u32big : (1 : Nat) < U32 ∧ (2 : Nat) < U32 ∧ (3 : Nat) < U32 := by
      refine ⟨?_, ?_, ?_⟩ <;> simp [U32]
    constructor
    · simp [pingServer, setHealthy, incrementFailures, setAlive, h0,
        Nat.mod_eq_of_lt u32big.1, halive]
    constructor
    · simp [pingServer, setHealthy, incrementFailures, setAlive, h0,
        Nat.mod_eq_of_lt u32big.1, Nat.mod_eq_of_lt u32big.2.1, halive]
    · simp [pingServer, setHealthy, incrementFailures, setAlive, h0,
        Nat.mod_eq_of_lt u32big.1, Nat.mod_eq_of_lt u32big.2.1,
        Nat.mod_eq_of_lt u32big.2.2, halive]

theorem pingServer_spec_witness :
    srvB.failureCount + 1 < U32 ∧
    (((pingServer true srvB).1 = true ∧
     (pingServer true srvB).2.isHealthy = true ∧
     (pingServer true srvB).2.failureCount = 0 ∧
     (pingServer true srvB).2.isAlive = true) ∧
    ((pingServer false srvB).1 = false ∧
     (pingServer false srvB).2.isHealthy = false ∧
     (pingServer false srvB).2.failureCount = srvB.failureCount + 1 ∧
     (pingServer false srvB).2.isAlive =
       (if 3 ≤ srvB.failureCount + 1 then false else srvB.isAlive)) ∧
    (srvB.isAlive = true → srvB.failureCount = 0 →
      ((pingServer false srvB).2).isAlive = true ∧
      ((pingServer false (pingServer false srvB).2).2).isAlive = true ∧
      ((pingServer false (pingServer false (pingServer false srvB).2).2).2).isAlive = false)) :=
  ⟨by decide, pingServer_spec srvB (by decide)⟩

/-!  Balancer pool operations (`round_robin_load_balancer.cpp`). -/

/-- `LoadBalancer::addServer`: reject a duplicate address, otherwise append.
The C++ null-pointer guard has no counterpart for a Lean `Server` value.
Returns (success, new pool). -/
def addServer (pool : List Server) (s : Server) : Bool × List Server :=
  if pool.any (fun t => t.address = s.address) then (false, pool)
  else (true, pool ++ [s])

/-- `LoadBalancer::removeServer`: erase every server whose address matches,
report whether the pool shrank. -/
def removeServer (pool : List Server) (addr : String) : Bool × List Server :=
  let newPool := pool.filter (fun t => ¬ t.address = addr)
  (decide (newPool.length < pool.length), newPool)

/-- State of a `RoundRobinLoadBalancer`: the shared pool plus the atomic
cursor `_currentServerIndex`. -/
structure RRState where
  servers : List Server
  cursor : Nat
deriving Repr, DecidableEq

/-- `RoundRobinLoadBalancer::RoundRobinLoadBalancer`: an empty initial list
throws `std::invalid_argument`, modelled as `none`; otherwise the cursor
starts at 0. -/
def mkRoundRobin (servers : List Server) : Option RRState :=
  if servers.isEmpty then none
  else some { servers := servers, cursor := 0 }

/-- The scan loop shared by `RoundRobinLoadBalancer::getNextServer` and
`WeightedRoundRobinLoadBalancer::getNextServer` (`for (i = 0; i < serverCount; ++i)`).
`fuel` counts the remaining iterations (initially `N`), `i` the loop
variable, `fb` the `fallbackServer` accumulator.  Yields either the found
healthy server with its pool index, or the final fallback. -/
def rrFindAux (servers : List Server) (start N : Nat) :
    Nat → Nat → Option Server → Sum (Nat × Server) (Option Server)
  | 0, _, fb => Sum.inr fb
  | fuel + 1, i, fb =>
    match servers[(start + i) % N]? with
    | none => Sum.inr fb
    | some s =>
      if s.isAlive then
        if s.isHealthy then Sum.inl ((start + i) % N, s)
        else rrFindAux servers start N fuel (i + 1) (if fb.isSome then fb else some s)
      else rrFindAux servers start N fuel (i + 1) fb

/-- The fallback-index loop
(`for (i...) if (_serversList[i] == fallbackServer) ...`): first index whose
entry is pointer-identical (same `id`) to `target`. -/
def findServerIdx (l : List Server) (target : Server) (i : Nat) : Option Nat :=
  match l with
  | [] => none
  | s :: rest => if s.id = target.id then some i else findServerIdx rest target (i + 1)

/-- Body of `RoundRobinLoadBalancer::getNextServer` over an explicit pool and
cursor: empty pool gives nullptr; a healthy hit advances the cursor past its
index; otherwise the first-seen alive fallback is returned with the cursor
advanced past its (first) pool index; else nullptr with the cursor kept. -/
def selectNext (servers : List Server) (cursor : Nat) : Option Server × Nat :=
  if servers.isEmpty then (none, cursor)
  else
    let N := servers.length
    match rrFindAux servers cursor N N 0 none with
    | Sum.inl (idx, s) => (some s, (idx + 1) % N)
    | Sum.inr none => (none, cursor)
    | Sum.inr (some fb) =>
      match findServerIdx servers fb 0 with
      | some j => (some fb, (j + 1) % N)
      | none => (some fb, cursor)

/-- `RoundRobinLoadBalancer::getNextServer` as a state transformer. -/
def rrGetNextServer (st : RRState) : Option Server × RRState :=
  let r := selectNext st.servers st.cursor
  (r.1, { st with cursor := r.2 })

/-- State of a `WeightedRoundRobinLoadBalancer`: pool, derived
`_weightedServersList`, and cursor. -/
structure WRRState where
  servers : List Server
  weightedList : List Server
  cursor : Nat
deriving Repr, DecidableEq

/-- `WeightedRoundRobinLoadBalancer::updateWeightedList`: rebuild the
expansion list by pushing each alive server `weight` times, in pool
order; non-alive servers are skipped entirely. -/
def updateWeightedList (servers : List Server) : List Server :=
  servers.foldl
    (fun acc s => if s.isAlive then acc ++ List.replicate s.weight s else acc) []

/-- `WeightedRoundRobinLoadBalancer::WeightedRoundRobinLoadBalancer`: an
empty initial list throws, modelled as `none`; otherwise the constructor
builds the expansion list once. -/
def mkWeighted (servers : List Server) : Option WRRState :=
  if servers.isEmpty then none
  else some { servers := servers, weightedList := updateWeightedList servers, cursor := 0 }

/-- `WeightedRoundRobinLoadBalancer::getNextServer`: rebuild the expansion
list if it is currently empty, then run the same scan as the plain
round-robin balancer over the expansion list. -/
def wrrGetNextServer (st : WRRState) : Option Server × WRRState :=
  let wl := if st.weightedList.isEmpty then updateWeightedList st.servers else st.weightedList
  let r := selectNext wl st.cursor
  (r.1, { st with weightedList := wl, cursor := r.2 })

/-- C9: `addServer` refuses a duplicate address and leaves the pool
unchanged, otherwise appends and succeeds; `removeServer` of an absent
address fails and leaves the pool unchanged, otherwise removes every
matching server and succeeds. -/
theorem addServer_removeServer_spec (pool : List Server) (s : Server) (addr : String) :
    ((∃ t ∈ pool, t.address = s.address) → addServer pool s = (false, pool)) ∧
    ((∀ t ∈ pool, t.address ≠ s.address) → addServer pool s = (true, pool ++ [s])) ∧
    ((∀ t ∈ pool, t.address ≠ addr) → removeServer pool addr = (false, pool)) ∧
    ((∃ t ∈ pool, t.address = addr) →
      (removeServer pool addr).1 = true ∧
      (removeServer pool addr).2 = pool.filter (fun t => ¬ t.address = addr)) := by
  refine ⟨?_, ?_, ?_, ?_⟩
  · intro ⟨t, ht, heq⟩
    have : pool.any (fun t => t.address = s.address) = true := by
      simp only [List.any_eq_true, decide_eq_true_eq]
      exact ⟨t, ht, heq⟩
    simp [addServer, this]
  · intro h
    have : pool.any (fun t => t.address = s.address) = false := by
      simp only [List.any_eq_false, decide_eq_true_eq]
      exact h
    simp [addServer, this]
  · intro h
    have hfi : pool.filter (fun t => ¬ t.address = addr) = pool := by
      rw [List.filter_eq_self]
      intro a ha
      simpa using h a ha
    simp only [removeServer]
    rw [hfi]
    simp
  · intro ⟨t, ht, heq⟩
    have hlt : (pool.filter (fun t => ¬ t.address = addr)).length < pool.length := by
      rw [List.length_filter_lt_length_iff_exists]
      exact ⟨t, ht, by simpa using heq⟩
    constructor
    · exact decide_eq_true hlt
    · rfl

theorem addServer_removeServer_spec_witness :
    (∃ t ∈ [srvA, srvB], t.address = srvA.address) ∧
    (((∃ t ∈ [srvA, srvB], t.address = srvA.address) →
        addServer [srvA, srvB] srvA = (false, [srvA, srvB])) ∧
    ((∀ t ∈ [srvA, srvB], t.address ≠ srvA.address) →
        addServer [srvA, srvB] srvA = (true, [srvA, srvB] ++ [srvA])) ∧
    ((∀ t ∈ [srvA, srvB], t.address ≠ "10.0.0.2:80") →
        removeServer [srvA, srvB] "10.0.0.2:80" = (false, [srvA, srvB])) ∧
    ((∃ t ∈ [srvA, srvB], t.address = "10.0.0.2:80") →
      (removeServer [srvA, srvB] "10.0.0.2:80").1 = true ∧
      (removeServer [srvA, srvB] "10.0.0.2:80").2 =
        [srvA, srvB].filter (fun t => ¬ t.address = "10.0.0.2:80"))) :=
  ⟨by decide, addServer_removeServer_spec [srvA, srvB] srvA "10.0.0.2:80"⟩

/-- C8: constructing either balancer from an empty server list fails that
construction (no state is produced), while a non-empty list succeeds. -/
theorem constructor_empty_spec (servers : List Server) (h : servers ≠ []) :
    mkRoundRobin [] = none ∧ mkWeighted [] = none ∧
    (∃ st, mkRoundRobin servers = some st ∧ st.servers = servers ∧ st.cursor = 0) ∧
    (∃ st, mkWeighted servers = some st ∧ st.servers = servers ∧
      st.weightedList = updateWeightedList servers ∧ st.cursor = 0) := by
  have hne : servers.isEmpty = false := by
    cases servers
    · exact absurd rfl h
    · rfl
  refine ⟨rfl, rfl, ?_, ?_⟩
  · refine ⟨{ servers := servers, cursor := 0 }, ?_, rfl, rfl⟩
    simp [mkRoundRobin, hne]
  · refine ⟨{ servers := servers, weightedList := updateWeightedList servers, cursor := 0 },
      ?_, rfl, rfl, rfl⟩
    simp [mkWeighted, hne]

theorem constructor_empty_spec_witness :
    [srvA] ≠ [] ∧
    (mkRoundRobin [] = none ∧ mkWeighted [] = none ∧
    (∃ st, mkRoundRobin [srvA] = some st ∧ st.servers = [srvA] ∧ st.cursor = 0) ∧
    (∃ st, mkWeighted [srvA] = some st ∧ st.servers = [srvA] ∧
      st.weightedList = updateWeightedList [srvA] ∧ st.cursor = 0)) :=
  ⟨by decide, constructor_empty_spec [srvA] (by decide)⟩

lemma updateWeightedList_foldl (l : List Server) :
    ∀ acc : List Server,
      l.foldl (fun acc s => if s.isAlive then acc ++ List.replicate s.weight s else acc) acc =
        acc ++ l.flatMap (fun s => if s.isAlive then List.replicate s.weight s else []) := by
  induction l with
  | nil => intro acc; simp
  | cons a l ih =>
    intro acc
    simp only [List.foldl_cons, List.flatMap_cons]
    by_cases h : a.isAlive
    · rw [if_pos h, if_pos h, ih, List.append_assoc]
    · rw [if_neg h, if_neg h, ih]
      simp

/-- C3: the rebuilt expansion list is, in pool order, each alive server
repeated exactly `weight` consecutive times with non-alive servers excluded
entirely; `getNextServer` rebuilds exactly when the expansion list is
currently empty, before selecting from it. -/
theorem weightedList_spec (servers : List Server) (st : WRRState) :
    updateWeightedList servers =
      servers.flatMap (fun s => if s.isAlive then List.replicate s.weight s else []) ∧
    (st.weightedList ≠ [] →
      (wrrGetNextServer st).1 = (selectNext st.weightedList st.cursor).1 ∧
      (wrrGetNextServer st).2.weightedList = st.weightedList ∧
      (wrrGetNextServer st).2.cursor = (selectNext st.weightedList st.cursor).2) ∧
    (st.weightedList = [] →
      (wrrGetNextServer st).1 = (selectNext (updateWeightedList st.servers) st.cursor).1 ∧
      (wrrGetNextServer st).2.weightedList = updateWeightedList st.servers ∧
      (wrrGetNextServer st).2.cursor = (selectNext (updateWeightedList st.servers) st.cursor).2) := by
  refine ⟨?_, ?_, ?_⟩
  · rw [updateWeightedList, updateWeightedList_foldl]
    simp
  · intro h
    have he : st.weightedList.isEmpty = false := by
      cases hwl : st.weightedList
      · exact absurd hwl h
      · rfl
    refine ⟨?_, ?_, ?_⟩ <;> simp [wrrGetNextServer, he]
  · intro h
    have he : st.weightedList.isEmpty = true := by rw [h]; rfl
    refine ⟨?_, ?_, ?_⟩ <;> simp [wrrGetNextServer, he]

def wrrSample : WRRState :=
  { servers := [srvA], weightedList := [srvA, srvA, srvA], cursor := 0 }

theorem weightedList_spec_witness :
    wrrSample.weightedList ≠ [] ∧
    (updateWeightedList [srvA, srvB] =
      [srvA, srvB].flatMap (fun s => if s.isAlive then List.replicate s.weight s else []) ∧
    (wrrSample.weightedList ≠ [] →
      (wrrGetNextServer wrrSample).1 = (selectNext wrrSample.weightedList wrrSample.cursor).1 ∧
      (wrrGetNextServer wrrSample).2.weightedList = wrrSample.weightedList ∧
      (wrrGetNextServer wrrSample).2.cursor = (selectNext wrrSample.weightedList wrrSample.cursor).2) ∧
    (wrrSample.weightedList = [] →
      (wrrGetNextServer wrrSample).1 = (selectNext (updateWeightedList wrrSample.servers) wrrSample.cursor).1 ∧
      (wrrGetNextServer wrrSample).2.weightedList = updateWeightedList wrrSample.servers ∧
      (wrrGetNextServer wrrSample).2.cursor =
        (selectNext (updateWeightedList wrrSample.servers) wrrSample.cursor).2)) :=
  ⟨by decide, weightedList_spec [srvA, srvB] wrrSample⟩

/-! Characterization of the shared scan loop `rrFindAux`. -/

lemma rrFindAux_no_alive (servers : List Server) (start : Nat) :
    ∀ fuel i fb, i + fuel = servers.length →
    (∀ k w, i ≤ k → k < servers.length →
      servers[(start + k) % servers.length]? = some w → w.isAlive = false) →
    rrFindAux servers start servers.length fuel i fb = Sum.inr fb := by
  intro fuel
  induction fuel with
  | zero => intro i fb _ _; rfl
  | succ fuel ih =>
    intro i fb hif hno
    have hpos : 0 < servers.length := by omega
    have hidx : (start + i) % servers.length < servers.length := Nat.mod_lt _ hpos
    obtain ⟨s, hs⟩ : ∃ s, servers[(start + i) % servers.length]? = some s :=
      ⟨_, List.getElem?_eq_getElem hidx⟩
    have hsa : s.isAlive = false := hno i s le_rfl (by omega) hs
    simp only [rrFindAux]
    rw [hs]
    simp only [hsa]
    simp only [Bool.false_eq_true, if_false]
    exact ih (i + 1) fb (by omega) (fun k w hk1 hk2 hw => hno k w (by omega) hk2 hw)

lemma rrFindAux_healthy (servers : List Server) (start : Nat) :
    ∀ fuel i fb k v, i + fuel = servers.length → i ≤ k → k < servers.length →
    servers[(start + k) % servers.length]? = some v →
    v.isAlive = true → v.isHealthy = true →
    (∀ j w, i ≤ j → j < k → servers[(start + j) % servers.length]? = some w →
      ¬(w.isAlive = true ∧ w.isHealthy = true)) →
    rrFindAux servers start servers.length fuel i fb =
      Sum.inl ((start + k) % servers.length, v) := by
  intro fuel
  induction fuel with
  | zero => intro i fb k v hif hik hk _ _ _ _; omega
  | succ fuel ih =>
    intro i fb k v hif hik hk hv hva hvh hmin
    have hpos : 0 < servers.length := by omega
    have hidx : (start + i) % servers.length < servers.length := Nat.mod_lt _ hpos
    obtain ⟨s, hs⟩ : ∃ s, servers[(start + i) % servers.length]? = some s :=
      ⟨_, List.getElem?_eq_getElem hidx⟩
    by_cases hik' : i = k
    · subst hik'
      have hsv : s = v := by rw [hv] at hs; exact (Option.some_inj.mp hs).symm
      subst hsv
      simp only [rrFindAux]
      rw [hs]
      simp [hva, hvh]
    · have hlt : i < k := by omega
      have hns := hmin i s le_rfl hlt hs
      simp only [rrFindAux]
      rw [hs]
      by_cases ha : s.isAlive = true
      · have hh : s.isHealthy = false := by
          cases hh' : s.isHealthy
          · rfl
          · exact absurd ⟨ha, hh'⟩ hns
        simp only [ha, if_true, hh, Bool.false_eq_true, if_false]
        exact ih (i + 1) _ k v (by omega) (by omega) hk hv hva hvh
          (fun j w hj1 hj2 hw => hmin j w (by omega) hj2 hw)
      · have ha' : s.isAlive = false := by
          cases ha'' : s.isAlive
          · rfl
          · exact absurd ha'' ha
        simp only [ha', Bool.false_eq_true, if_false]
        exact ih (i + 1) fb k v (by omega) (by omega) hk hv hva hvh
          (fun j w hj1 hj2 hw => hmin j w (by omega) hj2 hw)

lemma rrFindAux_keep_fallback (servers : List Server) (start : Nat) :
    ∀ fuel i v, i + fuel = servers.length →
    (∀ j w, i ≤ j → j < servers.length →
      servers[(start + j) % servers.length]? = some w →
      ¬(w.isAlive = true ∧ w.isHealthy = true)) →
    rrFindAux servers start servers.length fuel i (some v) = Sum.inr (some v) := by
  intro fuel
  induction fuel with
  | zero => intro i v _ _; rfl
  | succ fuel ih =>
    intro i v hif hnh
    have hpos : 0 < servers.length := by omega
    have hidx : (start + i) % servers.length < servers.length := Nat.mod_lt _ hpos
    obtain ⟨s, hs⟩ : ∃ s, servers[(start + i) % servers.length]? = some s :=
      ⟨_, List.getElem?_eq_getElem hidx⟩
    have hns := hnh i s le_rfl (by omega) hs
    simp only [rrFindAux]
    rw [hs]
    by_cases ha : s.isAlive = true
    · have hh : s.isHealthy = false := by
        cases hh' : s.isHealthy
        · rfl
        · exact absurd ⟨ha, hh'⟩ hns
      simp only [ha, if_true, hh, Bool.false_eq_true, if_false, Option.isSome_some]
      exact ih (i + 1) v (by omega) (fun j w hj1 hj2 hw => hnh j w (by omega) hj2 hw)
    · have ha' : s.isAlive = false := by
        cases ha'' : s.isAlive
        · rfl
        · exact absurd ha'' ha
      simp only [ha', Bool.false_eq_true, if_false]
      exact ih (i + 1) v (by omega) (fun j w hj1 hj2 hw => hnh j w (by omega) hj2 hw)

lemma rrFindAux_fallback (servers : List Server) (start : Nat) :
    ∀ fuel i k v, i + fuel = servers.length → i ≤ k → k < servers.length →
    servers[(start + k) % servers.length]? = some v →
    v.isAlive = true →
    (∀ j w, i ≤ j → j < servers.length →
      servers[(start + j) % servers.length]? = some w →
      ¬(w.isAlive = true ∧ w.isHealthy = true)) →
    (∀ j w, i ≤ j → j < k → servers[(start + j) % servers.length]? = some w →
      w.isAlive = false) →
    rrFindAux servers start servers.length fuel i none = Sum.inr (some v) := by
  intro fuel
  induction fuel with
  | zero => intro i k v hif hik hk _ _ _ _; omega
  | succ fuel ih =>
    intro i k v hif hik hk hv hva hnh hdead
    have hpos : 0 < servers.length := by omega
    have hidx : (start + i) % servers.length < servers.length := Nat.mod_lt _ hpos
    obtain ⟨s, hs⟩ : ∃ s, servers[(start + i) % servers.length]? = some s :=
      ⟨_, List.getElem?_eq_getElem hidx⟩
    by_cases hik' : i = k
    · subst hik'
      have hsv : s = v := by rw [hv] at hs; exact (Option.some_inj.mp hs).symm
      subst hsv
      have hh : s.isHealthy = false := by
        cases hh' : s.isHealthy
        · rfl
        · exact absurd ⟨hva, hh'⟩ (hnh i s le_rfl (by omega) hs)
      simp only [rrFindAux]
      rw [hs]
      simp only [hva, if_true, hh, Bool.false_eq_true, if_false, Option.isSome_none]
      exact rrFindAux_keep_fallback servers start fuel (i + 1) s (by omega)
        (fun j w hj1 hj2 hw => hnh j w (by omega) hj2 hw)
    · have hlt : i < k := by omega
      have ha' : s.isAlive = false := hdead i s le_rfl hlt hs
      simp only [rrFindAux]
      rw [hs]
      simp only [ha', Bool.false_eq_true, if_false]
      exact ih (i + 1) k v (by omega) (by omega) hk hv hva
        (fun j w hj1 hj2 hw => hnh j w (by omega) hj2 hw)
        (fun j w hj1 hj2 hw => hdead j w (by omega) hj2 hw)

lemma rrFindAux_inr_none (servers : List Server) (start : Nat) :
    ∀ fuel i fb, i + fuel = servers.length →
    rrFindAux servers start servers.length fuel i fb = Sum.inr none →
    fb = none ∧ (∀ k w, i ≤ k → k < servers.length →
      servers[(start + k) % servers.length]? = some w → w.isAlive = false) := by
  intro fuel
  induction fuel with
  | zero =>
    intro i fb hif h
    refine ⟨by simpa [rrFindAux] using h, ?_⟩
    intro k w hk1 hk2 _
    omega
  | succ fuel ih =>
    intro i fb hif h
    have hpos : 0 < servers.length := by omega
    have hidx : (start + i) % servers.length < servers.length := Nat.mod_lt _ hpos
    obtain ⟨s, hs⟩ : ∃ s, servers[(start + i) % servers.length]? = some s :=
      ⟨_, List.getElem?_eq_getElem hidx⟩
    rw [rrFindAux, hs] at h
    by_cases ha : s.isAlive = true
    · by_cases hh : s.isHealthy = true
      · simp [ha, hh] at h
      · have hh' : s.isHealthy = false := by
          cases hh'' : s.isHealthy
          · rfl
          · exact absurd hh'' hh
        simp only [ha, if_true, hh', Bool.false_eq_true, if_false] at h
        have := ih (i + 1) _ (by omega) h
        rcases this with ⟨hfb, _⟩
        cases hfb' : fb with
        | none => simp [hfb'] at hfb
        | some u => simp [hfb'] at hfb
    · have ha' : s.isAlive = false := by
        cases ha'' : s.isAlive
        · rfl
        · exact absurd ha'' ha
      simp only [ha', Bool.false_eq_true, if_false] at h
      obtain ⟨hfb, hrest⟩ := ih (i + 1) fb (by omega) h
      refine ⟨hfb, ?_⟩
      intro k w hk1 hk2 hw
      by_cases hki : k = i
      · subst hki
        rw [hw] at hs
        rw [Option.some_inj.mp hs]
        exact ha'
      · exact hrest k w (by omega) hk2 hw

lemma exists_scan_index (c N idx : Nat) (hN : 0 < N) (hidx : idx < N) :
    ∃ k, k < N ∧ (c + k) % N = idx := by
  have hr : c % N < N := Nat.mod_lt _ hN
  by_cases h : c % N ≤ idx
  · refine ⟨idx - c % N, by omega, ?_⟩
    rw [← Nat.mod_add_mod]
    have he : c % N + (idx - c % N) = idx := by omega
    rw [he, Nat.mod_eq_of_lt hidx]
  · refine ⟨N + idx - c % N, by omega, ?_⟩
    rw [← Nat.mod_add_mod]
    have he : c % N + (N + idx - c % N) = N + idx := by omega
    rw [he, Nat.add_mod_left, Nat.mod_eq_of_lt hidx]

lemma findServerIdx_of_getElem (l : List Server) :
    ∀ (i base : Nat) (v : Server), (l.map Server.id).Nodup →
    l[i]? = some v → findServerIdx l v base = some (base + i) := by
  induction l with
  | nil => intro i base v _ h; simp at h
  | cons a rest ih =>
    intro i base v hnd h
    rw [List.map_cons, List.nodup_cons] at hnd
    cases i with
    | zero =>
      have hav : a = v := by simpa using h
      subst hav
      simp [findServerIdx]
    | succ i =>
      have hrest : rest[i]? = some v := by simpa using h
      have hvmem : v ∈ rest := List.getElem?_mem hrest
      have hne : ¬ a.id = v.id := by
        intro he
        exact hnd.1 (he ▸ List.mem_map_of_mem Server.id hvmem)
      rw [findServerIdx, if_neg hne, ih i (base + 1) v hnd.2 hrest]
      congr 1
      omega

lemma selectNext_inl (servers : List Server) (cursor idx : Nat) (u : Server)
    (hne : servers.isEmpty = false)
    (hfind : rrFindAux servers cursor servers.length servers.length 0 none =
      Sum.inl (idx, u)) :
    selectNext servers cursor = (some u, (idx + 1) % servers.length) := by
  simp only [selectNext, hne, Bool.false_eq_true, if_false, hfind]

lemma selectNext_inr_none (servers : List Server) (cursor : Nat)
    (hne : servers.isEmpty = false)
    (hfind : rrFindAux servers cursor servers.length servers.length 0 none =
      Sum.inr none) :
    selectNext servers cursor = (none, cursor) := by
  simp only [selectNext, hne, Bool.false_eq_true, if_false, hfind]

lemma selectNext_inr_some (servers : List Server) (cursor j : Nat) (fb : Server)
    (hne : servers.isEmpty = false)
    (hfind : rrFindAux servers cursor servers.length servers.length 0 none =
      Sum.inr (some fb))
    (hj : findServerIdx servers fb 0 = some j) :
    selectNext servers cursor = (some fb, (j + 1) % servers.length) := by
  simp only [selectNext, hne, Bool.false_eq_true, if_false, hfind, hj]

lemma selectNext_fst_inr_some (servers : List Server) (cursor : Nat) (fb : Server)
    (hne : servers.isEmpty = false)
    (hfind : rrFindAux servers cursor servers.length servers.length 0 none =
      Sum.inr (some fb)) :
    (selectNext servers cursor).1 = some fb := by
  simp only [selectNext, hne, Bool.false_eq_true, if_false, hfind]
  cases hj : findServerIdx servers fb 0 <;> rfl

/-- C1: the round-robin `getNextServer` scans the pool once around from the
stored cursor; the first alive-and-healthy server in scan order is
returned with the cursor advanced to `(index+1) mod N`; when the scan
finds no healthy server but saw an alive one, the first-scanned
alive-but-unhealthy server is returned with the cursor advanced past its
pool index; the result is `none` exactly when no pool server is alive. -/
theorem getNextServer_spec (servers : List Server) (cursor : Nat)
    (hids : (servers.map Server.id).Nodup) :
    ((rrGetNextServer ⟨servers, cursor⟩).1 = none ↔ ∀ s ∈ servers, s.isAlive = false) ∧
    (∀ k v, k < servers.length →
      servers[(cursor + k) % servers.length]? = some v →
      v.isAlive = true → v.isHealthy = true →
      (∀ j w, j < k → servers[(cursor + j) % servers.length]? = some w →
        ¬(w.isAlive = true ∧ w.isHealthy = true)) →
      (rrGetNextServer ⟨servers, cursor⟩).1 = some v ∧
      (rrGetNextServer ⟨servers, cursor⟩).2.cursor =
        ((cursor + k) % servers.length + 1) % servers.length) ∧
    (∀ k v, k < servers.length →
      servers[(cursor + k) % servers.length]? = some v →
      (∀ j w, j < servers.length → servers[(cursor + j) % servers.length]? = some w →
        ¬(w.isAlive = true ∧ w.isHealthy = true)) →
      v.isAlive = true →
      (∀ j w, j < k → servers[(cursor + j) % servers.length]? = some w →
        w.isAlive = false) →
      (rrGetNextServer ⟨servers, cursor⟩).1 = some v ∧
      (rrGetNextServer ⟨servers, cursor⟩).2.cursor =
        ((cursor + k) % servers.length + 1) % servers.length) := by
  by_cases hemp : servers = []
  · subst hemp
    refine ⟨?_, ?_, ?_⟩
    · simp [rrGetNextServer, selectNext]
    · intro k v hk
      simp at hk
    · intro k v hk
      simp at hk
  · have hne : servers.isEmpty = false := by
      cases servers
      · exact absurd rfl hemp
      · rfl
    have hpos : 0 < servers.length := List.length_pos.mpr hemp
    refine ⟨⟨?_, ?_⟩, ?_, ?_⟩
    · -- none result forces every server non-alive
      intro hnone s hs
      have hn1 : (selectNext servers cursor).1 = none := hnone
      rcases hfind : rrFindAux servers cursor servers.length servers.length 0 none with
        ⟨idx, u⟩ | fb
      · rw [selectNext_inl servers cursor idx u hne hfind] at hn1
        simp at hn1
      · cases fb with
        | some u =>
          rw [selectNext_fst_inr_some servers cursor u hne hfind] at hn1
          simp at hn1
        | none =>
          obtain ⟨_, hdead⟩ :=
            rrFindAux_inr_none servers cursor servers.length 0 none (by omega) hfind
          obtain ⟨idx, hidx, hget⟩ := List.getElem_of_mem hs
          obtain ⟨k, hk, hkeq⟩ := exists_scan_index cursor servers.length idx hpos hidx
          refine hdead k s (Nat.zero_le k) hk ?_
          rw [hkeq, List.getElem?_eq_getElem hidx, hget]
    · -- no alive server forces the none result
      intro hall
      have hfind := rrFindAux_no_alive servers cursor servers.length 0 none
        (by omega)
        (fun k w _ hk hw => hall w (List.getElem?_mem hw))
      have := selectNext_inr_none servers cursor hne hfind
      show (selectNext servers cursor).1 = none
      rw [this]
    · -- first healthy hit in scan order
      intro k v hk hv hva hvh hmin
      have hfind := rrFindAux_healthy servers cursor servers.length 0 none k v
        (by omega) (Nat.zero_le k) hk hv hva hvh
        (fun j w _ hj hw => hmin j w hj hw)
      have hsel := selectNext_inl servers cursor _ v hne hfind
      constructor
      · show (selectNext servers cursor).1 = some v
        rw [hsel]
      · show (selectNext servers cursor).2 = _
        rw [hsel]
    · -- fallback: first-scanned alive server when none is healthy
      intro k v hk hv hnh hva hdead
      have hfind := rrFindAux_fallback servers cursor servers.length 0 k v
        (by omega) (Nat.zero_le k) hk hv hva
        (fun j w _ hj hw => hnh j w hj hw)
        (fun j w _ hj hw => hdead j w hj hw)
      have hkidx : (cursor + k) % servers.length < servers.length := Nat.mod_lt _ hpos
      have hjidx : findServerIdx servers v 0 = some ((cursor + k) % servers.length) := by
        have := findServerIdx_of_getElem servers ((cursor + k) % servers.length) 0 v hids hv
        simpa using this
      have hsel := selectNext_inr_some servers cursor _ v hne hfind hjidx
      constructor
      · show (selectNext servers cursor).1 = some v
        rw [hsel]
      · show (selectNext servers cursor).2 = _
        rw [hsel]

def poolAB : List Server := [srvA, srvB]

theorem getNextServer_spec_witness :
    (poolAB.map Server.id).Nodup ∧
    (((rrGetNextServer ⟨poolAB, 0⟩).1 = none ↔ ∀ s ∈ poolAB, s.isAlive = false) ∧
    (∀ k v, k < poolAB.length →
      poolAB[(0 + k) % poolAB.length]? = some v →
      v.isAlive = true → v.isHealthy = true →
      (∀ j w, j < k → poolAB[(0 + j) % poolAB.length]? = some w →
        ¬(w.isAlive = true ∧ w.isHealthy = true)) →
      (rrGetNextServer ⟨poolAB, 0⟩).1 = some v ∧
      (rrGetNextServer ⟨poolAB, 0⟩).2.cursor =
        ((0 + k) % poolAB.length + 1) % poolAB.length) ∧
    (∀ k v, k < poolAB.length →
      poolAB[(0 + k) % poolAB.length]? = some v →
      (∀ j w, j < poolAB.length → poolAB[(0 + j) % poolAB.length]? = some w →
        ¬(w.isAlive = true ∧ w.isHealthy = true)) →
      v.isAlive = true →
      (∀ j w, j < k → poolAB[(0 + j) % poolAB.length]? = some w →
        w.isAlive = false) →
      (rrGetNextServer ⟨poolAB, 0⟩).1 = some v ∧
      (rrGetNextServer ⟨poolAB, 0⟩).2.cursor =
        ((0 + k) % poolAB.length + 1) % poolAB.length)) :=
  ⟨by decide, getNextServer_spec poolAB 0 (by decide)⟩

/-- `getNextServer` called `n` times in a row, collecting the results
(`RoundRobinLoadBalancer` driven as in the repository's round-robin use). -/
def rrRun : Nat → RRState → List (Option Server) × RRState
  | 0, st => ([], st)
  | n + 1, st =>
    let r := rrGetNextServer st
    let rest := rrRun n r.2
    (r.1 :: rest.1, rest.2)

lemma selectNext_all_healthy (servers : List Server) (c : Nat)
    (hne : servers ≠ [])
    (hall : ∀ s ∈ servers, s.isAlive = true ∧ s.isHealthy = true) :
    selectNext servers c =
      (servers[c % servers.length]?,
        (c % servers.length + 1) % servers.length) := by
  have hne' : servers.isEmpty = false := by
    cases servers
    · exact absurd rfl hne
    · rfl
  have hpos : 0 < servers.length := List.length_pos.mpr hne
  have hidx : (c + 0) % servers.length < servers.length := Nat.mod_lt _ hpos
  obtain ⟨v, hv⟩ : ∃ v, servers[(c + 0) % servers.length]? = some v :=
    ⟨_, List.getElem?_eq_getElem hidx⟩
  have hmem : v ∈ servers := List.getElem?_mem hv
  have hfind := rrFindAux_healthy servers c servers.length 0 none 0 v
    (by omega) le_rfl hpos hv (hall v hmem).1 (hall v hmem).2
    (fun j w hj1 hj2 _ => absurd hj2 (by omega))
  rw [selectNext_inl servers c _ v hne' hfind]
  rw [Nat.add_zero] at hv
  rw [hv]
  simp

lemma rrRun_all_healthy (servers : List Server)
    (hne : servers ≠ [])
    (hall : ∀ s ∈ servers, s.isAlive = true ∧ s.isHealthy = true) :
    ∀ (m c : Nat),
      (rrRun m ⟨servers, c⟩).1 =
        (List.range m).map (fun k => servers[(c + k) % servers.length]?) := by
  intro m
  induction m with
  | zero => intro c; simp [rrRun]
  | succ m ih =>
    intro c
    have hpos : 0 < servers.length := List.length_pos.mpr hne
    have hstep := selectNext_all_healthy servers c hne hall
    have hrr : rrGetNextServer ⟨servers, c⟩ =
        ((selectNext servers c).1, ⟨servers, (selectNext servers c).2⟩) := rfl
    simp only [rrRun, hrr, hstep]
    have hc1 : (c % servers.length + 1) % servers.length =
        (c + 1) % servers.length := Nat.mod_add_mod c servers.length 1
    rw [hc1, ih ((c + 1) % servers.length)]
    rw [List.range_succ_eq_map, List.map_cons, List.map_map]
    congr 1
    apply List.map_congr_left
    intro k _
    simp only [Function.comp_apply]
    congr 1
    rw [Nat.mod_add_mod]
    congr 1
    omega

lemma range_map_eq_rotate (servers : List Server) (c : Nat) :
    (List.range servers.length).map (fun k => servers[(c + k) % servers.length]?) =
      (servers.rotate c).map some := by
  apply List.ext_getElem?
  intro n
  by_cases hn : n < servers.length
  · have hcomm : (n + c) % servers.length = (c + n) % servers.length := by
      rw [Nat.add_comm]
    rw [List.getElem?_map, List.getElem?_range hn, List.getElem?_map,
      List.getElem?_rotate hn, hcomm]
    have hidx : (c + n) % servers.length < servers.length :=
      Nat.mod_lt _ (by omega)
    simp only [Option.map_some']
    rw [List.getElem?_eq_getElem hidx]
    rfl
  · have h1 : ((List.range servers.length).map
        (fun k => servers[(c + k) % servers.length]?)).length ≤ n := by
      simp
      omega
    have h2 : ((servers.rotate c).map some).length ≤ n := by
      simp [List.length_rotate]
      omega
    rw [List.getElem?_eq_none h1, List.getElem?_eq_none h2]

/-- C4: with every pool server alive and healthy, `N` consecutive
`getNextServer` calls return the pool rotated to start at the current
cursor — each pool entry exactly once (the result list is a permutation of
the pool), and with pairwise-distinct pool addresses no address repeats
within those `N` results. -/
theorem rr_full_cycle (servers : List Server) (c : Nat)
    (hc : c < servers.length)
    (hall : ∀ s ∈ servers, s.isAlive = true ∧ s.isHealthy = true) :
    (rrRun servers.length ⟨servers, c⟩).1 = (servers.rotate c).map some ∧
    List.Perm (servers.rotate c) servers ∧
    ((servers.map Server.address).Nodup →
      ((servers.rotate c).map Server.address).Nodup) := by
  have hne : servers ≠ [] := by
    intro h
    rw [h] at hc
    simp at hc
  refine ⟨?_, List.rotate_perm servers c, ?_⟩
  · rw [rrRun_all_healthy servers hne hall servers.length c]
    exact range_map_eq_rotate servers c
  · intro hnd
    have hp : List.Perm ((servers.rotate c).map Server.address)
        (servers.map Server.address) := (List.rotate_perm servers c).map _
    exact hp.nodup_iff.mpr hnd

def srvHA : Server := setHealthy srvA true
def srvHB : Server := setHealthy srvB true

theorem rr_full_cycle_witness :
    (1 < ([srvHA, srvHB] : List Server).length ∧
      ∀ s ∈ ([srvHA, srvHB] : List Server), s.isAlive = true ∧ s.isHealthy = true) ∧
    ((rrRun ([srvHA, srvHB] : List Server).length ⟨[srvHA, srvHB], 1⟩).1 =
      (([srvHA, srvHB] : List Server).rotate 1).map some ∧
    List.Perm (([srvHA, srvHB] : List Server).rotate 1) [srvHA, srvHB] ∧
    ((([srvHA, srvHB] : List Server).map Server.address).Nodup →
      ((([srvHA, srvHB] : List Server).rotate 1).map Server.address).Nodup)) :=
  ⟨by decide, rr_full_cycle [srvHA, srvHB] 1 (by decide) (by decide)⟩

/-! DNS resolution with caching (`PingServer::resolveHostname`) and address
parsing (`PingServer::parseServerAddress`), `ping_server.cpp`. -/

/-- One `_dnsCache` entry (`DNSCacheEntry`). -/
structure DnsEntry where
  resolvedIP : String
  expiryTime : Nat
deriving Repr, DecidableEq

/-- Lookup `_dnsCache.find(hostname)`. -/
def cacheFind (cache : List (String × DnsEntry)) (hostname : String) : Option DnsEntry :=
  (cache.find? (fun p => p.1 = hostname)).map Prod.snd

/-- Map assignment `_dnsCache[hostname] = entry`: overwrite the existing
entry or append a new one. -/
def cacheStore (cache : List (String × DnsEntry)) (hostname : String) (e : DnsEntry) :
    List (String × DnsEntry) :=
  if cache.any (fun p => p.1 = hostname) then
    cache.map (fun p => if p.1 = hostname then (hostname, e) else p)
  else cache ++ [(hostname, e)]

/-- The straight-line tail of `resolveHostname` after literal check and
cache check both fall through: one `getaddrinfo` call (abstracted by
`resolve`; `none` = failure), returning `""` on failure without caching,
and caching `{ip, now + ttl}` on success.  The last component counts the
underlying resolution calls made. -/
def resolveAndCache (resolve : String → Option String) (ttl now : Nat)
    (cache : List (String × DnsEntry)) (hostname : String) :
    String × List (String × DnsEntry) × Nat :=
  match resolve hostname with
  | none => ("", cache, 1)
  | some ip => (ip, cacheStore cache hostname ⟨ip, now + ttl⟩, 1)

/-- `PingServer::resolveHostname`.  `isLiteral` abstracts the `inet_pton`
literal-IPv4 test and `resolve` the `getaddrinfo` capability; `now` is the
steady-clock instant, `ttl` the `_dnsCacheTTL`.  A literal address is
returned unchanged with no cache interaction; a cached entry whose expiry
is in the future is returned without resolving; otherwise one resolution
is performed. -/
def resolveHostname (isLiteral : String → Bool) (resolve : String → Option String)
    (ttl now : Nat) (cache : List (String × DnsEntry)) (hostname : String) :
    String × List (String × DnsEntry) × Nat :=
  if isLiteral hostname then (hostname, cache, 0)
  else
    match cacheFind cache hostname with
    | some e =>
      if now < e.expiryTime then (e.resolvedIP, cache, 0)
      else resolveAndCache resolve ttl now cache hostname
    | none => resolveAndCache resolve ttl now cache hostname

lemma cacheFind_cacheStore (cache : List (String × DnsEntry)) (h : String) (e : DnsEntry) :
    cacheFind (cacheStore cache h e) h = some e := by
  unfold cacheStore
  by_cases hmem : cache.any (fun p => p.1 = h) = true
  · rw [if_pos hmem]
    induction cache with
    | nil => simp at hmem
    | cons q rest ih =>
      by_cases hq : q.1 = h
      · simp only [List.map_cons, if_pos hq]
        unfold cacheFind
        rw [List.find?_cons_of_pos]
        · rfl
        · simp
      · simp only [List.map_cons, if_neg hq]
        unfold cacheFind
        rw [List.find?_cons_of_neg]
        · have hrest : rest.any (fun p => p.1 = h) = true := by
            rw [List.any_cons] at hmem
            simpa [hq] using hmem
          exact ih hrest
        · simp [hq]
  · rw [if_neg hmem]
    have hmem' : cache.any (fun p => p.1 = h) = false := by
      cases hx : cache.any (fun p => p.1 = h)
      · rfl
      · exact absurd hx hmem
    induction cache with
    | nil =>
      unfold cacheFind
      simp only [List.nil_append]
      rw [List.find?_cons_of_pos]
      · rfl
      · simp
    | cons q rest ih =>
      rw [List.any_cons] at hmem'
      have hq : ¬ q.1 = h := by
        intro hx
        simp [hx] at hmem'
      have hrest : rest.any (fun p => p.1 = h) = false := by
        simpa [hq] using hmem'
      unfold cacheFind
      rw [List.cons_append, List.find?_cons_of_neg]
      · exact ih (by simp [hrest]) hrest
      · simp [hq]

/-- C5: `resolveHostname` returns a literal numeric address unchanged with
no cache interaction and no resolver call; a fresh cache entry is returned
with no resolver call; on cache miss or expiry exactly one resolver call
is made, a success is returned and stored with expiry `now + ttl`, and a
failure yields the empty string with the cache left unchanged. -/
theorem resolveHostname_spec (isLiteral : String → Bool)
    (resolve : String → Option String) (ttl now : Nat)
    (cache : List (String × DnsEntry)) (hostname : String) :
    (isLiteral hostname = true →
      resolveHostname isLiteral resolve ttl now cache hostname = (hostname, cache, 0)) ∧
    (isLiteral hostname = false →
      ∀ e, cacheFind cache hostname = some e → now < e.expiryTime →
        resolveHostname isLiteral resolve ttl now cache hostname =
          (e.resolvedIP, cache, 0)) ∧
    (isLiteral hostname = false →
      (cacheFind cache hostname = none ∨
        ∃ e, cacheFind cache hostname = some e ∧ e.expiryTime ≤ now) →
      ((resolveHostname isLiteral resolve ttl now cache hostname).2.2 = 1 ∧
       (∀ ip, resolve hostname = some ip →
         (resolveHostname isLiteral resolve ttl now cache hostname).1 = ip ∧
         cacheFind (resolveHostname isLiteral resolve ttl now cache hostname).2.1
           hostname = some ⟨ip, now + ttl⟩) ∧
       (resolve hostname = none →
         resolveHostname isLiteral resolve ttl now cache hostname = ("", cache, 1)))) := by
  refine ⟨?_, ?_, ?_⟩
  · intro hlit
    simp [resolveHostname, hlit]
  · intro hlit e he hfresh
    simp [resolveHostname, hlit, he, hfresh]
  · intro hlit hmiss
    have hbranch : resolveHostname isLiteral resolve ttl now cache hostname =
        resolveAndCache resolve ttl now cache hostname := by
      rcases hmiss with hnone | ⟨e, he, hexp⟩
      · simp [resolveHostname, hlit, hnone]
      · have : ¬ now < e.expiryTime := by omega
        simp [resolveHostname, hlit, he, this]
    rw [hbranch]
    refine ⟨?_, ?_, ?_⟩
    · cases hres : resolve hostname <;> simp [resolveAndCache, hres]
    · intro ip hres
      refine ⟨by simp [resolveAndCache, hres], ?_⟩
      simp only [resolveAndCache, hres]
      exact cacheFind_cacheStore cache hostname ⟨ip, now + ttl⟩
    · intro hres
      simp [resolveAndCache, hres]

def sampleResolve : String → Option String :=
  fun s => if s = "example.com" then some "5.6.7.8" else none

def sampleLiteral : String → Bool := fun s => s = "1.2.3.4"

def sampleCache : List (String × DnsEntry) := [("old.com", ⟨"9.9.9.9", 5⟩)]

theorem resolveHostname_spec_witness :
    (sampleLiteral "example.com" = false ∧
      cacheFind sampleCache "example.com" = none ∧
      sampleResolve "example.com" = some "5.6.7.8") ∧
    ((sampleLiteral "example.com" = true →
      resolveHostname sampleLiteral sampleResolve 300 10 sampleCache "example.com" =
        ("example.com", sampleCache, 0)) ∧
    (sampleLiteral "example.com" = false →
      ∀ e, cacheFind sampleCache "example.com" = some e → 10 < e.expiryTime →
        resolveHostname sampleLiteral sampleResolve 300 10 sampleCache "example.com" =
          (e.resolvedIP, sampleCache, 0)) ∧
    (sampleLiteral "example.com" = false →
      (cacheFind sampleCache "example.com" = none ∨
        ∃ e, cacheFind sampleCache "example.com" = some e ∧ e.expiryTime ≤ 10) →
      ((resolveHostname sampleLiteral sampleResolve 300 10 sampleCache "example.com").2.2 = 1 ∧
       (∀ ip, sampleResolve "example.com" = some ip →
         (resolveHostname sampleLiteral sampleResolve 300 10 sampleCache "example.com").1 = ip ∧
         cacheFind
           (resolveHostname sampleLiteral sampleResolve 300 10 sampleCache "example.com").2.1
           "example.com" = some ⟨ip, 10 + 300⟩) ∧
       (sampleResolve "example.com" = none →
         resolveHostname sampleLiteral sampleResolve 300 10 sampleCache "example.com" =
           ("", sampleCache, 1))))) :=
  ⟨by decide,
    resolveHostname_spec sampleLiteral sampleResolve 300 10 sampleCache "example.com"⟩

/-- Default-locale `isspace`, as consulted by `std::stoi` via `strtol`. -/
def isCppSpace (c : Char) : Bool :=
  c = ' ' || c = '\t' || c = '\n' || c = '\x0b' || c = '\x0c' || c = '\r'

/-- `std::stoi` on the characters of a string: skip leading whitespace,
read an optional sign and then the longest run of decimal digits
(remaining characters are ignored); no digit at all or a value outside
`int` range throws, modelled as `none`. -/
def stoiChars (cs : List Char) : Option Int :=
  let cs1 := cs.dropWhile isCppSpace
  let sr : Int × List Char :=
    match cs1 with
    | '-' :: rest => (-1, rest)
    | '+' :: rest => (1, rest)
    | _ => (1, cs1)
  let ds := sr.2.takeWhile Char.isDigit
  if ds.isEmpty then none
  else
    let mag : Nat := ds.foldl (fun acc c => acc * 10 + (c.toNat - 48)) 0
    let v : Int := sr.1 * mag
    if v < -(2 ^ 31) ∨ (2 ^ 31 - 1 : Int) < v then none else some v

/-- `serverAddress.find(':')` followed by the two `substr` calls: split the
character list at its FIRST colon, `none` when there is no colon. -/
def splitFirstColon : List Char → Option (List Char × List Char)
  | [] => none
  | c :: rest =>
    if c = ':' then some ([], rest)
    else (splitFirstColon rest).map (fun p => (c :: p.1, p.2))

/-- `PingServer::parseServerAddress`: no colon gives the whole string with
port 80; otherwise the part before the first colon is the host and the
rest is fed to `std::stoi`, whose failure makes the parse fail
(returning `none`, never throwing). -/
def parseServerAddress (serverAddress : String) : Option (String × Int) :=
  match splitFirstColon serverAddress.data with
  | none => some (serverAddress, 80)
  | some (h, p) =>
    match stoiChars p with
    | some port => some (String.mk h, port)
    | none => none

/-- C6 counterexample: on `"1:2:3"` the code splits at the FIRST colon
(host `"1"`, `stoi "2:3" = 2`), not at the last colon as claimed (which
would give host `"1:2"` and port 3). -/
theorem parseServerAddress_last_colon_cx :
    parseServerAddress "1:2:3" = some ("1", 2) ∧
    parseServerAddress "1:2:3" ≠ some ("1:2", 3) := by
  constructor
  · decide
  · decide

lemma splitFirstColon_of_no_colon :
    ∀ cs : List Char, ':' ∉ cs → splitFirstColon cs = none := by
  intro cs
  induction cs with
  | nil => intro _; rfl
  | cons c rest ih =>
    intro h
    have hc : ¬ c = ':' := fun he => h (he ▸ List.mem_cons_self c rest)
    have hrest : ':' ∉ rest := fun hm => h (List.mem_cons_of_mem c hm)
    rw [splitFirstColon, if_neg hc, ih hrest]
    rfl

lemma splitFirstColon_append :
    ∀ (h p : List Char), ':' ∉ h → splitFirstColon (h ++ ':' :: p) = some (h, p) := by
  intro h
  induction h with
  | nil =>
    intro p _
    simp [splitFirstColon]
  | cons c rest ih =>
    intro p hmem
    have hc : ¬ c = ':' := fun he => hmem (he ▸ List.mem_cons_self c rest)
    have hrest : ':' ∉ rest := fun hm => hmem (List.mem_cons_of_mem c hm)
    rw [List.cons_append, splitFirstColon, if_neg hc, ih p hrest]
    rfl

/-- C6 (amended): `parseServerAddress` splits on the FIRST colon: with no
colon present the host is the whole string and the port 80; with a colon,
the host is the part before the first colon and the remainder goes
through `std::stoi`, whose failure makes the call return failure rather
than throw. -/
theorem parseServerAddress_spec (addr : String) :
    (':' ∉ addr.data → parseServerAddress addr = some (addr, 80)) ∧
    (∀ h p, addr.data = h ++ ':' :: p → ':' ∉ h →
      parseServerAddress addr = (stoiChars p).map (fun n => (String.mk h, n))) := by
  constructor
  · intro hno
    rw [parseServerAddress, splitFirstColon_of_no_colon addr.data hno]
  · intro h p hsplit hno
    rw [parseServerAddress, hsplit, splitFirstColon_append h p hno]
    cases hstoi : stoiChars p <;> simp [hstoi]

theorem parseServerAddress_spec_witness :
    ("a:80".data = ['a'] ++ ':' :: ['8', '0'] ∧ ':' ∉ ['a']) ∧
    ((':' ∉ "a:80".data → parseServerAddress "a:80" = some ("a:80", 80)) ∧
    (∀ h p, "a:80".data = h ++ ':' :: p → ':' ∉ h →
      parseServerAddress "a:80" = (stoiChars p).map (fun n => (String.mk h, n)))) :=
  ⟨by decide, parseServerAddress_spec "a:80"⟩
